import Mathlib

/-!
The composite (root) store and the local filesystem store of clawio/acona.

A shallow embedding of `acona.go`, `root/root.go` and `local/local.go`.

* Go strings are modelled as `String` (sequences of Unicode characters); the
  functions of the Go standard library that the code calls (`strings.TrimSpace`,
  `strings.Trim`, `strings.Split`, `filepath.Clean`, `filepath.Join`,
  `filepath.Base`) are written out on character lists.
* The `acona.Store` interface is a record of operations over an abstract backend
  state `W`; every operation takes the state and returns its result together with
  the new state.
* The composite store threads a `World`: the backend state plus the list of the
  child operations invoked so far.
-/

namespace Acona

/-! ## Go standard library: `strings` -/

/-- Go `unicode.IsSpace`: the Unicode White_Space code points. -/
def isSpace (c : Char) : Bool :=
  let n := c.toNat
  (9 ≤ n && n ≤ 13) || n == 32 || n == 0x85 || n == 0xA0 || n == 0x1680 ||
  (0x2000 ≤ n && n ≤ 0x200a) || n == 0x2028 || n == 0x2029 || n == 0x202f ||
  n == 0x205f || n == 0x3000

/-- Both-ends trimming of the characters satisfying `p`, on character lists. -/
def trimChars (p : Char → Bool) (l : List Char) : List Char :=
  (l.dropWhile p).rdropWhile p

/-- Splitting a character list at every occurrence of `sep`; the result is never
empty (`strings.Split` of the empty string is one empty string). -/
def splitChars (sep : Char) : List Char → List (List Char)
  | [] => [[]]
  | c :: cs =>
    if c = sep then [] :: splitChars sep cs
    else
      match splitChars sep cs with
      | [] => [[c]]
      | t :: ts => (c :: t) :: ts

/-- Go `strings.TrimSpace`. -/
def TrimSpace (s : String) : String := ⟨trimChars isSpace s.data⟩

/-- Go `strings.Trim(s, cutset)` for a one-character cutset. -/
def Trim (s : String) (cut : Char) : String := ⟨trimChars (fun c => c == cut) s.data⟩

/-- Go `strings.Split(s, sep)` for a one-character separator. -/
def Split (s : String) (sep : Char) : List String := (splitChars sep s.data).map String.mk

/-- Go `strings.Join(elems, sep)`. -/
def JoinStrings (elems : List String) (sep : String) : String := sep.intercalate elems

/-! ## Go standard library: `path/filepath` (Unix) -/

/-- One step of the lexical processing of `filepath.Clean`: `stack` holds the
elements kept so far, innermost first. -/
def cleanStep (rooted : Bool) (stack : List String) (seg : String) : List String :=
  if seg = "" ∨ seg = "." then stack
  else if seg = ".." then
    match stack with
    | [] => if rooted then [] else [".."]
    | top :: rest => if top = ".." then ".." :: top :: rest else rest
  else seg :: stack

/-- Go `filepath.Clean`: collapse repeated separators, drop `.` elements, resolve
inner `..` elements, drop `..` at the start of a rooted path; the empty result is `.`. -/
def Clean (p : String) : String :=
  let rooted := p.data.head? = some '/'
  let kept := ((Split p '/').foldl (cleanStep rooted) []).reverse
  let body := JoinStrings kept "/"
  if rooted then "/" ++ body
  else if body = "" then "." else body

/-- Go `filepath.Join`: the elements from the first non-empty one on are joined with
`/` and cleaned; when every element is empty the result is empty. -/
def Join (elem : List String) : String :=
  match elem.dropWhile (fun e => e == "") with
  | [] => ""
  | rest => Clean (JoinStrings rest "/")

/-- Go `path.Ext`: the suffix of the last element of the path that starts at its last
dot; empty when that element has no dot. -/
def Ext (p : String) : String :=
  let lastElemRev := p.data.reverse.takeWhile (fun c => c != '/')
  if lastElemRev.contains '.' then
    ⟨(lastElemRev.takeWhile (fun c => c != '.') ++ ['.']).reverse⟩
  else ""

/-- Go `filepath.Base`: the last element of the path, trailing separators removed. -/
def Base (p : String) : String :=
  if p = "" then "."
  else
    let stripped := p.data.rdropWhile (fun c => c == '/')
    if stripped = [] then "/"
    else ⟨(stripped.reverse.takeWhile (fun c => c != '/')).reverse⟩

/-! ## Package `acona`: errors, objects, stores -/

/-- Go `error` values. The first fourteen constructors are the package-level
sentinels of `acona.go`; `ErrHashesNotMatch` is the sentinel the local store returns
on a checksum mismatch; `os` stands for an error raised by the operating system or
by a backend, carrying what `os.IsNotExist` and the `*os.LinkError` type test
observe; `wrap` is the result of `errors.Wrap` / `errors.Wrapf`. -/
inductive Error where
  | ErrorCantPurge
  | ErrorCantCopy
  | ErrorCantMove
  | ErrorCantDirMove
  | ErrorDirExists
  | ErrorCantSetModTime
  | ErrorDirNotFound
  | ErrorObjectNotFound
  | ErrorLevelNotSupported
  | ErrorListAborted
  | ErrorListOnlyRoot
  | ErrorIsFile
  | ErrorNotDeleting
  | ErrorCantMoveOverlapping
  | ErrHashesNotMatch
  | os (notExist linkError : Bool) (msg : String)
  | wrap (cause : Error) (msg : String)
  deriving DecidableEq, Repr

deriving instance DecidableEq for Except

/-- The function `errors.Cause` of `github.com/pkg/errors`: the innermost error of a
chain of wraps. -/
def Error.Cause : Error → Error
  | .wrap cause _ => cause.Cause
  | e => e

/-- Go `io.Reader`: the bytes the reader still has to deliver. -/
abbrev Reader := List Nat

/-- Go `io.ReadCloser`: the bytes of the opened object. -/
abbrev ReadCloser := List Nat

/-- The interface `acona.Object`, given by the values its eight accessors return. -/
structure Object where
  Checksum : String
  ID : String
  IsDir : Bool
  ModTime : Int
  MimeType : String
  Path : String
  Size : Int
  Optional : Option String
  deriving DecidableEq, Repr

/-- The interface `acona.Store` over a backend state `W`: every operation reads the
state and returns its result with the state it leaves. -/
structure Store (W : Type) where
  Name : String
  Root : String
  PutObject : Reader → String → String → W → Option Error × W
  GetObject : String → W → Except Error ReadCloser × W
  Examine : String → W → Except Error Object × W
  ListTree : String → W → Except Error (List Object) × W
  Remove : String → W → Option Error × W
  Rename : String → String → W → Option Error × W

/-- Modelled from the spec: `acona.SecureJoin` is not under src/. The spec describes
it as a confinement-aware join that normalizes traversal sequences so that the result
never leaves the first argument: the user path is cleaned as a path rooted at `/`
and then joined below the root. -/
def SecureJoin (root userPath : String) : String :=
  Join [root, Join ["/", userPath]]

/-- One invocation of an operation of a child store, as recorded by the composite
store: the name of the child and the arguments it was called with. -/
inductive Call where
  | PutObject (store : String) (reader : Reader) (path clientChecksum : String)
  | GetObject (store path : String)
  | Examine (store path : String)
  | ListTree (store path : String)
  | Remove (store path : String)
  | Rename (store sourcePath targetPath : String)
  deriving DecidableEq, Repr

/-- The state a composite store runs in: the state of the backends of its children
and the child operations invoked so far, oldest first. -/
structure World (W : Type) where
  backend : W
  calls : List Call
  deriving DecidableEq, Repr

end Acona

/-! ## Package `root`: the composite store -/

namespace Root

open Acona

/-- The struct `root.Object`: a wrapped object and the name of the child store it
came from. -/
structure Object where
  pfx : String
  wrapped : Acona.Object

namespace Object

def Checksum (o : Object) : String := o.wrapped.Checksum
def ID (o : Object) : String := o.wrapped.ID
def IsDir (o : Object) : Bool := o.wrapped.IsDir
def ModTime (o : Object) : Int := o.wrapped.ModTime
def MimeType (o : Object) : String := o.wrapped.MimeType
def Path (o : Object) : String := SecureJoin o.pfx o.wrapped.Path
def Size (o : Object) : Int := o.wrapped.Size
def Optional (o : Object) : Option String := o.wrapped.Optional

/-- A `root.Object` seen through the interface `acona.Object`. -/
def toObject (o : Object) : Acona.Object :=
  { Checksum := o.Checksum, ID := o.ID, IsDir := o.IsDir, ModTime := o.ModTime,
    MimeType := o.MimeType, Path := o.Path, Size := o.Size, Optional := o.Optional }

end Object

def newObject (pfx : String) (object : Acona.Object) : Acona.Object :=
  Object.toObject { pfx := pfx, wrapped := object }

/-- The struct `root.Store`. -/
structure Store (W : Type) where
  name : String
  root : String
  stores : List (Acona.Store W)

namespace Store

variable {W : Type}

/-- The segments of a path as the routing sees them:
`strings.Split(strings.Trim(strings.TrimSpace(path), "/"), "/")`. -/
def tokens (path : String) : List String :=
  Split (Trim (TrimSpace path) '/') '/'

/-- The first segment of a path as the routing sees it: `tokens[0]`. -/
def firstSegment (path : String) : String := (tokens path).headD ""

/-- The second segment of a path as the routing sees it (`tokens[1]`), empty when
there is none: the path the routing forwards. -/
def forwardedPath (path : String) : String := (tokens path).getD 1 ""

/-- The backend state that the root listing reaches after the `Examine("")` of each
store of the list, in turn. -/
def examinedRoots (stores : List (Acona.Store W)) (b : W) : W :=
  stores.foldl (fun b c => (c.Examine "" b).2) b

/-- A name that is one path element: not empty and without `/`. -/
def plainName (n : String) : Prop := n ≠ "" ∧ '/' ∉ n.data

instance (n : String) : Decidable (plainName n) := by
  unfold plainName
  exact inferInstance

def getStoreFromPath (s : Store W) (path : String) : Except Error (Acona.Store W × String) :=
  match tokens path with
  | [] => .error Error.ErrorObjectNotFound
  | first :: rest =>
    let pathWithoutStoreName : String :=
      match rest with
      | [] => ""
      | second :: _ => second
    match s.stores.find? (fun store => store.Name == first) with
    | some store => .ok (store, pathWithoutStoreName)
    | none => .error Error.ErrorObjectNotFound

def NewStore (name root : String) (stores : List (Acona.Store W)) : Except Error (Store W) :=
  .ok { name := name, root := root, stores := stores }

def Name (s : Store W) : String := s.name
def Root (s : Store W) : String := s.root

def PutObject (s : Store W) (reader : Reader) (path inputHash : String) (w : World W) :
    Option Error × World W :=
  match s.getStoreFromPath path with
  | .error err => (some err, w)
  | .ok (store, path) =>
    let r := store.PutObject reader path inputHash w.backend
    (r.1, ⟨r.2, w.calls ++ [Call.PutObject store.Name reader path inputHash]⟩)

def GetObject (s : Store W) (path : String) (w : World W) :
    Except Error ReadCloser × World W :=
  match s.getStoreFromPath path with
  | .error err => (.error err, w)
  | .ok (store, path) =>
    let r := store.GetObject path w.backend
    (r.1, ⟨r.2, w.calls ++ [Call.GetObject store.Name path]⟩)

def Examine (s : Store W) (path : String) (w : World W) :
    Except Error Acona.Object × World W :=
  match s.getStoreFromPath path with
  | .error err => (.error err, w)
  | .ok (store, path) =>
    let r := store.Examine path w.backend
    let w1 : World W := ⟨r.2, w.calls ++ [Call.Examine store.Name path]⟩
    match r.1 with
    | .error err => (.error (Error.wrap err "can't examine"), w1)
    | .ok object => (.ok (newObject store.Name object), w1)

/-- The loop of `listRoot`: `objects` is the slice built so far. -/
def listRootLoop : List (Acona.Store W) → List Acona.Object → World W →
    Except Error (List Acona.Object) × World W
  | [], objects, w => (.ok objects, w)
  | store :: rest, objects, w =>
    let r := store.Examine "" w.backend
    let w1 : World W := ⟨r.2, w.calls ++ [Call.Examine store.Name ""]⟩
    match r.1 with
    | .error err => (.error (Error.wrap err "can't examine"), w1)
    | .ok object => listRootLoop rest (objects ++ [newObject store.Name object]) w1

def listRoot (s : Store W) (w : World W) : Except Error (List Acona.Object) × World W :=
  listRootLoop s.stores [] w

def ListTree (s : Store W) (path : String) (w : World W) :
    Except Error (List Acona.Object) × World W :=
  if path = "" then
    let r := s.listRoot w
    match r.1 with
    | .error err => (.error err, r.2)
    | .ok objects => (.ok objects, r.2)
  else
    match s.getStoreFromPath path with
    | .error err => (.error err, w)
    | .ok (store, path) =>
      let r := store.ListTree path w.backend
      let w1 : World W := ⟨r.2, w.calls ++ [Call.ListTree store.Name path]⟩
      match r.1 with
      | .error err => (.error (Error.wrap err ("can't list tree - " ++ path)), w1)
      | .ok objects => (.ok (objects.map (fun o => newObject store.Name o)), w1)

def Remove (s : Store W) (path : String) (w : World W) : Option Error × World W :=
  match s.getStoreFromPath path with
  | .error err => (some err, w)
  | .ok (store, path) =>
    let r := store.Remove path w.backend
    (r.1, ⟨r.2, w.calls ++ [Call.Remove store.Name path]⟩)

def Rename (s : Store W) (srcPath destPath : String) (w : World W) : Option Error × World W :=
  match s.getStoreFromPath srcPath with
  | .error err => (some err, w)
  | .ok (srcStore, srcPath) =>
    match s.getStoreFromPath destPath with
    | .error err => (some err, w)
    | .ok (destStore, destPath) =>
      if srcStore.Name ≠ destStore.Name then (some Error.ErrorCantMove, w)
      else
        let r := srcStore.Rename srcPath destPath w.backend
        (r.1, ⟨r.2, w.calls ++ [Call.Rename srcStore.Name srcPath destPath]⟩)

/-- A composite store seen through the interface `acona.Store`, so that it can be a
child of another composite store; its backend state is its own `World`. -/
def toStore (s : Store W) : Acona.Store (World W) :=
  { Name := s.Name, Root := s.Root,
    PutObject := s.PutObject, GetObject := s.GetObject, Examine := s.Examine,
    ListTree := s.ListTree, Remove := s.Remove, Rename := s.Rename }

end Store

end Root


/-! ## Package `local`: the filesystem store -/

namespace Local

open Acona

/-- Go `os.FileInfo`, with `ModTime` already in Unix seconds. -/
structure FileInfo where
  Name : String
  Size : Int
  ModTime : Int
  IsDir : Bool
  deriving DecidableEq, Repr

/-- The operating-system calls of `local.go` over a filesystem state `F`. Calls that
only read take the state; calls that write return the new state. `TempFile` is
`ioutil.TempFile(dir, "")` and returns the name of the file it created; `Write` puts
bytes into an open file; `Open` reports whether the path can be opened; `Read` gives
the bytes that the file opened at the path delivers; `Readdir` is `fd.Readdir(-1)` on
the opened path; `RemoveAll` is `os.RemoveAll`; `TypeByExtension` is
`mime.TypeByExtension`. -/
structure OS (F : Type) where
  TempDir : String
  TempFile : String → F → Except Error String × F
  Write : String → List Nat → F → Option Error × F
  Rename : String → String → F → Option Error × F
  Stat : String → F → Except Error FileInfo
  Open : String → F → Option Error
  Read : String → F → ReadCloser
  Readdir : String → F → Except Error (List FileInfo)
  RemoveAll : String → F → Option Error × F
  TypeByExtension : String → String

/-- Go `os.IsNotExist`. -/
def IsNotExist : Error → Bool
  | .os notExist _ _ => notExist
  | _ => false

/-- The type test `err.(*os.LinkError)`. -/
def IsLinkError : Error → Bool
  | .os _ linkError _ => linkError
  | _ => false

/-- Go `io.Copy(fd, r)`: every byte the reader still has is written to the file, and
the reader is left at its end. -/
def ioCopy {F : Type} (os : OS F) (fd : String) (r : Reader) (fs : F) :
    Option Error × Reader × F :=
  match os.Write fd r fs with
  | (some err, fs1) => (some err, r, fs1)
  | (none, fs1) => (none, [], fs1)

/-- Modelled from the spec: the hash helpers of package `acona` (`HashNone`,
`HashTypeFromString`, `HashValueFromString`, `HashStream`) are not under src/. The
spec gives a streaming hash from a stream to a mapping of hash kind to hash value, and
parsers of the client checksum `<kind>:<hex-value>`, an absent or unrecognized kind
meaning that verification is skipped. `HashStream` consumes the reader it is given. -/
structure Hashing where
  HashNone : Nat
  HashTypeFromString : String → Nat
  HashValueFromString : String → String
  HashStream : Reader → Except Error (Nat → String)

structure Config where
  RootDir : String
  TempDir : String
  CheckInputHash : Bool

/-- The struct `local.Object`. -/
structure Object where
  fileInfo : FileInfo
  path : String

namespace Object

def Checksum (_o : Object) : String := ""
def ID (o : Object) : String := o.path
def IsDir (o : Object) : Bool := o.fileInfo.IsDir
def ModTime (o : Object) : Int := o.fileInfo.ModTime
def Path (o : Object) : String := o.path
def MimeType {F : Type} (os : OS F) (o : Object) : String := os.TypeByExtension (Ext o.Path)
def Size (o : Object) : Int := o.fileInfo.Size
def Optional (_o : Object) : Option String := none

/-- A `local.Object` seen through the interface `acona.Object`. -/
def toObject {F : Type} (os : OS F) (o : Object) : Acona.Object :=
  { Checksum := o.Checksum, ID := o.ID, IsDir := o.IsDir, ModTime := o.ModTime,
    MimeType := o.MimeType os, Path := o.Path, Size := o.Size, Optional := o.Optional }

end Object

def newObject {F : Type} (os : OS F) (fileInfo : FileInfo) (path : String) : Acona.Object :=
  Object.toObject os { fileInfo := fileInfo, path := path }

/-- The struct `local.Store`. -/
structure Store where
  name : String
  root : String
  rootDir : String
  tempDir : String
  checkInputHash : Bool
  deriving DecidableEq, Repr

namespace Store

variable {F : Type}

def NewStore (os : OS F) (name root : String) (config : Config) : Except Error Store :=
  let store : Store :=
    { name := "", root := "", rootDir := "", tempDir := "", checkInputHash := false }
  let store := { store with name := name }
  let store := { store with root := root }
  let store := { store with rootDir := SecureJoin config.RootDir root }
  let store := { store with tempDir := config.TempDir }
  let store := if store.tempDir = "" then { store with tempDir := os.TempDir } else store
  .ok store

def Name (s : Store) : String := s.name
def Root (s : Store) : String := s.root

def getLocalPath (s : Store) (path : String) : String :=
  SecureJoin s.rootDir path

def saveToTempFile (os : OS F) (s : Store) (r : Reader) (fs : F) :
    Except Error String × Reader × F :=
  match os.TempFile s.tempDir fs with
  | (.error err, fs1) => (.error err, r, fs1)
  | (.ok fd, fs1) =>
    match ioCopy os fd r fs1 with
    | (some err, r1, fs2) => (.error err, r1, fs2)
    | (none, r1, fs2) => (.ok fd, r1, fs2)

/-- The checksum verification of `PutObject`, run on the reader as `saveToTempFile`
left it: `none` when the put may go on. -/
def checkHash (hs : Hashing) (s : Store) (reader : Reader) (inputHash : String) :
    Option Error :=
  if s.checkInputHash then
    let inputHashType := hs.HashTypeFromString inputHash
    if inputHashType ≠ hs.HashNone then
      match hs.HashStream reader with
      | .error err => some (Error.wrap err "can't compute hash")
      | .ok computedHash =>
        let inputHashValue := hs.HashValueFromString inputHash
        if computedHash inputHashType ≠ inputHashValue then some Error.ErrHashesNotMatch
        else none
    else none
  else none

def PutObject (os : OS F) (hs : Hashing) (s : Store) (reader : Reader)
    (path inputHash : String) (fs : F) : Option Error × F :=
  match s.saveToTempFile os reader fs with
  | (.error err, _, fs1) => (some (Error.wrap err "can't save to temp file"), fs1)
  | (.ok tmp, reader1, fs1) =>
    match s.checkHash hs reader1 inputHash with
    | some err => (some err, fs1)
    | none =>
      let localPath := s.getLocalPath path
      match os.Rename tmp localPath fs1 with
      | (some err, fs2) =>
        if IsNotExist err then (some Error.ErrorObjectNotFound, fs2)
        else (some (Error.wrap err "can't rename tmp file to target"), fs2)
      | (none, fs2) => (none, fs2)

def GetObject (os : OS F) (s : Store) (path : String) (fs : F) : Except Error ReadCloser :=
  let localPath := s.getLocalPath path
  match os.Open localPath fs with
  | some err =>
    if IsNotExist err then .error Error.ErrorObjectNotFound
    else .error (Error.wrap err "can't open local file")
  | none => .ok (os.Read localPath fs)

def Examine (os : OS F) (s : Store) (path : String) (fs : F) : Except Error Acona.Object :=
  let localPath := s.getLocalPath path
  match os.Stat localPath fs with
  | .error err =>
    if IsNotExist err then .error Error.ErrorObjectNotFound
    else .error (Error.wrap err "can't examine")
  | .ok fileInfo => .ok (newObject os fileInfo path)

def ListTree (os : OS F) (s : Store) (path : String) (fs : F) :
    Except Error (List Acona.Object) :=
  let localPath := s.getLocalPath path
  match os.Stat localPath fs with
  | .error err =>
    if IsNotExist err then .error Error.ErrorObjectNotFound
    else .error (Error.wrap err "can't stat")
  | .ok fileInfo =>
    if !fileInfo.IsDir then .error Error.ErrorIsFile
    else
      match os.Open localPath fs with
      | some err =>
        if IsNotExist err then .error Error.ErrorObjectNotFound
        else .error err
      | none =>
        match os.Readdir localPath fs with
        | .error err => .error (Error.wrap err "can't read dir")
        | .ok fileInfos =>
          .ok (fileInfos.map (fun fi => newObject os fi (Join [path, Base fi.Name])))

def Remove (os : OS F) (s : Store) (path : String) (fs : F) : Option Error × F :=
  let localPath := s.getLocalPath path
  match os.RemoveAll localPath fs with
  | (some err, fs1) => (some (Error.wrap err "can't remove"), fs1)
  | (none, fs1) => (none, fs1)

def Rename (os : OS F) (s : Store) (srcPath destPath : String) (fs : F) : Option Error × F :=
  let srcLocalPath := s.getLocalPath srcPath
  let destLocalPath := s.getLocalPath destPath
  match os.Rename srcLocalPath destLocalPath fs with
  | (some err, fs1) =>
    if IsNotExist err then (some Error.ErrorObjectNotFound, fs1)
    else if IsLinkError err then (some Error.ErrorCantMove, fs1)
    else (some (Error.wrap err "can't move"), fs1)
  | (none, fs1) => (none, fs1)

/-- A local store seen through the interface `acona.Store`; its backend state is the
filesystem. -/
def toStore (os : OS F) (hs : Hashing) (s : Store) : Acona.Store F :=
  { Name := s.Name, Root := s.Root,
    PutObject := fun reader path inputHash fs => s.PutObject os hs reader path inputHash fs,
    GetObject := fun path fs => (s.GetObject os path fs, fs),
    Examine := fun path fs => (s.Examine os path fs, fs),
    ListTree := fun path fs => (s.ListTree os path fs, fs),
    Remove := fun path fs => s.Remove os path fs,
    Rename := fun srcPath destPath fs => s.Rename os srcPath destPath fs }

end Store

end Local

/-! ## Concrete stores and filesystems for the examples -/

namespace Examples

open Acona

/-- The state of the in-memory stores: one entry per object, holding the name of the
store it belongs to, its path and its bytes. -/
abbrev Mem := List (String × String × List Nat)

def memFind (name path : String) (m : Mem) : Option (List Nat) :=
  (m.find? (fun e => e.1 == name && e.2.1 == path)).map (fun e => e.2.2)

def memFile (path : String) (content : List Nat) : Acona.Object :=
  { Checksum := "", ID := path, IsDir := false, ModTime := 0, MimeType := "", Path := path,
    Size := content.length, Optional := none }

def memDir (path : String) : Acona.Object :=
  { Checksum := "", ID := path, IsDir := true, ModTime := 0, MimeType := "", Path := path,
    Size := 0, Optional := none }

/-- An in-memory leaf store named `name`. Its root (`""`) is a directory; the listing
of a directory holds the objects whose path is the directory joined with their base
name; a listing with no object fails with `ErrorObjectNotFound`. -/
def memStore (name : String) : Acona.Store Mem where
  Name := name
  Root := ""
  PutObject := fun reader path _ m =>
    (none, (name, path, reader) :: m.filter (fun e => !(e.1 == name && e.2.1 == path)))
  GetObject := fun path m =>
    match memFind name path m with
    | some content => (.ok content, m)
    | none => (.error Error.ErrorObjectNotFound, m)
  Examine := fun path m =>
    if path = "" then (.ok (memDir ""), m)
    else
      match memFind name path m with
      | some content => (.ok (memFile path content), m)
      | none => (.error Error.ErrorObjectNotFound, m)
  ListTree := fun path m =>
    match m.filter (fun e => e.1 == name && Join [path, Base e.2.1] == e.2.1) with
    | [] => (.error Error.ErrorObjectNotFound, m)
    | es => (.ok (es.map (fun e => memFile e.2.1 e.2.2)), m)
  Remove := fun path m => (none, m.filter (fun e => !(e.1 == name && e.2.1 == path)))
  Rename := fun src dst m =>
    match memFind name src m with
    | none => (some Error.ErrorObjectNotFound, m)
    | some content =>
      (none, (name, dst, content) ::
        m.filter (fun e => !(e.1 == name && (e.2.1 == src || e.2.1 == dst))))

/-- A composite store over the two in-memory stores `photos` and `docs`. -/
def album : Root.Store Mem :=
  { name := "album", root := "", stores := [memStore "photos", memStore "docs"] }

/-- A composite store with no child. -/
def emptyRoot : Root.Store Mem :=
  { name := "inner", root := "", stores := [] }

/-- A composite store whose only child is the composite store `emptyRoot`. -/
def nested : Root.Store (World Mem) :=
  { name := "outer", root := "", stores := [emptyRoot.toStore] }

/-- A node of the in-memory filesystem: a file, a directory with its entries, or a
directory that may be examined but, for lack of permission, not opened. -/
inductive Node where
  | file (content : List Nat)
  | dir (entries : List Local.FileInfo)
  | lockedDir
  deriving DecidableEq, Repr

/-- An in-memory filesystem: physical path and node, flat. -/
abbrev MemFS := List (String × Node)

def fsFind (path : String) (fs : MemFS) : Option Node :=
  (fs.find? (fun e => e.1 == path)).map (fun e => e.2)

def errNoEnt : Error := Error.os true false "no such file or directory"

def errNotDir : Error := Error.os false false "not a directory"

def errAccess : Error := Error.os false false "permission denied"

/-- The proper ancestors of a path: what stands before each of its separators. -/
def ancestors (path : String) : List String :=
  (List.range path.data.length).filterMap (fun i =>
    if 0 < i ∧ path.data.get? i = some '/' then some ⟨path.data.take i⟩ else none)

/-- The error of a lookup of a path that is not in the filesystem: `ENOTDIR` when the
path runs through a file, `ENOENT` otherwise. -/
def lookupError (path : String) (fs : MemFS) : Error :=
  if (ancestors path).any (fun a =>
      match fsFind a fs with
      | some (Node.file _) => true
      | _ => false) then errNotDir
  else errNoEnt

/-- The operating-system calls over the in-memory filesystem. -/
def memOS : Local.OS MemFS where
  TempDir := "/tmp"
  TempFile := fun dir fs =>
    let name := Join [dir, "staging"]
    (.ok name, (name, Node.file []) :: fs.filter (fun e => !(e.1 == name)))
  Write := fun fd bytes fs => (none, (fd, Node.file bytes) :: fs.filter (fun e => !(e.1 == fd)))
  Rename := fun old new fs =>
    match fsFind old fs with
    | none => (some (Error.os true true "rename: no such file or directory"), fs)
    | some node => (none, (new, node) :: fs.filter (fun e => !(e.1 == old || e.1 == new)))
  Stat := fun path fs =>
    match fsFind path fs with
    | none => .error (lookupError path fs)
    | some (Node.file content) =>
      .ok { Name := Base path, Size := content.length, ModTime := 0, IsDir := false }
    | some (Node.dir _) => .ok { Name := Base path, Size := 0, ModTime := 0, IsDir := true }
    | some Node.lockedDir => .ok { Name := Base path, Size := 0, ModTime := 0, IsDir := true }
  Open := fun path fs =>
    match fsFind path fs with
    | none => some (lookupError path fs)
    | some Node.lockedDir => some errAccess
    | some _ => none
  Read := fun path fs =>
    match fsFind path fs with
    | some (Node.file content) => content
    | _ => []
  Readdir := fun path fs =>
    match fsFind path fs with
    | some (Node.dir entries) => .ok entries
    | _ => .error errNotDir
  RemoveAll := fun path fs =>
    (none, fs.filter (fun e =>
      !(e.1 == path || e.1.data.take (path.data.length + 1) == path.data ++ ['/'])))
  TypeByExtension := fun ext => if ext = ".jpg" then "image/jpeg" else ""

/-- A hash with one kind, `sum` (kind 1): the decimal sum of the bytes. A client
checksum is recognized when it starts with `sum:`. -/
def sumHashing : Local.Hashing where
  HashNone := 0
  HashTypeFromString := fun s => if s.data.take 4 = "sum:".data then 1 else 0
  HashValueFromString := fun s => ⟨s.data.drop 4⟩
  HashStream := fun r => .ok (fun kind => if kind = 1 then toString r.sum else "")

/-- The local store that `NewStore` builds from a configuration with checksum
checking switched on. -/
def checkedStore : Local.Store :=
  match Local.Store.NewStore memOS "data" ""
      { RootDir := "/data", TempDir := "/tmp", CheckInputHash := true } with
  | .ok store => store
  | .error _ => { name := "", root := "", rootDir := "", tempDir := "", checkInputHash := false }

/-- The local store named `name` that `NewStore` builds over the root directory
`rootDir`. -/
def localStore (name rootDir : String) : Local.Store :=
  match Local.Store.NewStore memOS name ""
      { RootDir := rootDir, TempDir := "/tmp", CheckInputHash := false } with
  | .ok store => store
  | .error _ => { name := "", root := "", rootDir := "", tempDir := "", checkInputHash := false }

/-- A composite store whose only child is the local store `data` over `/data`. -/
def shelf : Root.Store MemFS :=
  { name := "shelf", root := "",
    stores := [(localStore "data" "/data").toStore memOS sumHashing] }

/-- A composite store whose only child is a local store whose root directory is the
path of a regular file. -/
def fileRooted : Root.Store MemFS :=
  { name := "fileRooted", root := "",
    stores := [(localStore "a" "/data/a.jpg").toStore memOS sumHashing] }

/-- A composite store whose only child is a local store named `photos/`, with a
trailing separator. -/
def slashNamed : Root.Store MemFS :=
  { name := "slashNamed", root := "",
    stores := [(localStore "photos/" "/data").toStore memOS sumHashing] }

/-- A filesystem whose directory `/data/private` cannot be opened. -/
def lockedFS : MemFS :=
  [("/data", Node.dir [⟨"private", 0, 0, true⟩]),
   ("/data/private", Node.lockedDir)]

/-- A filesystem with the root directory `/data` holding the file `a.jpg` and the
directory `2021`. -/
def sampleFS : MemFS :=
  [("/data", Node.dir [⟨"a.jpg", 3, 0, false⟩, ⟨"2021", 0, 0, true⟩]),
   ("/data/a.jpg", Node.file [1, 2, 3]),
   ("/data/2021", Node.dir [⟨"img.jpg", 2, 0, false⟩]),
   ("/data/2021/img.jpg", Node.file [4, 5])]

end Examples

/-! ## Lemmas on the string primitives -/

namespace Acona

theorem trimChars_eq_self (p : Char → Bool) (l : List Char)
    (hh : ∀ c ∈ l.head?, p c = false) (hl : ∀ c ∈ l.getLast?, p c = false) :
    trimChars p l = l := by
  have hd : l.dropWhile p = l := by
    cases l with
    | nil => rfl
    | cons a t =>
      have ha : p a = false := hh a (by simp)
      simp [ha]
  unfold trimChars
  rw [hd, List.rdropWhile_eq_self_iff]
  intro hne
  have hb : p (l.getLast hne) = false := hl _ (by simp [List.getLast?_eq_getLast l hne])
  simp [hb]

theorem splitChars_of_not_mem (sep : Char) (l : List Char) (h : sep ∉ l) :
    splitChars sep l = [l] := by
  induction l with
  | nil => rfl
  | cons c cs ih =>
    have hc : c ≠ sep := fun e => h (by simp [e])
    have hcs : sep ∉ cs := fun e => h (by simp [e])
    simp [splitChars, hc, ih hcs]

theorem splitChars_append_sep (sep : Char) (a b : List Char) (h : sep ∉ a) :
    splitChars sep (a ++ sep :: b) = a :: splitChars sep b := by
  induction a with
  | nil => simp [splitChars]
  | cons c cs ih =>
    have hc : c ≠ sep := fun e => h (by simp [e])
    have hcs : sep ∉ cs := fun e => h (by simp [e])
    simp [splitChars, hc, ih hcs]

theorem splitChars_ne_nil (sep : Char) (l : List Char) : splitChars sep l ≠ [] := by
  induction l with
  | nil => simp [splitChars]
  | cons c cs ih =>
    unfold splitChars
    split
    · simp
    · split
      · simp
      · simp

theorem data_ne_nil_of_ne_empty (n : String) (h : n ≠ "") : n.data ≠ [] :=
  fun h1 => h (String.ext h1)

end Acona

/-! ## Routing of the composite store -/

namespace Root.Store

open Acona

variable {W : Type}

/-- The routing tokens are never empty: `strings.Split` returns at least one string. -/
theorem tokens_ne_nil (path : String) : tokens path ≠ [] := by
  simp [tokens, Split, splitChars_ne_nil]

/-- The tokens of `n/p` for a name `n` and a single-segment remainder `p` that the
trimming leaves alone. -/
theorem tokens_name_slash_segment (n p : String) (hn : n ≠ "") (hns : '/' ∉ n.data)
    (hnl : ∀ c ∈ n.data.head?, isSpace c = false) (hps : '/' ∉ p.data)
    (hpt : ∀ c ∈ p.data.getLast?, isSpace c = false) :
    tokens (n ++ "/" ++ p) = if p = "" then [n] else [n, p] := by
  have hnd : n.data ≠ [] := data_ne_nil_of_ne_empty n hn
  obtain ⟨a, t, hat⟩ := List.exists_cons_of_ne_nil hnd
  have ha_sp : isSpace a = false := hnl a (by simp [hat])
  have ha_sl : a ≠ '/' := fun e => hns (by simp [hat, e])
  have hdata : (n ++ "/" ++ p).data = n.data ++ '/' :: p.data := by
    simp [String.data_append]
  by_cases hp : p = ""
  · subst hp
    have h1 : trimChars isSpace (n.data ++ ['/']) = n.data ++ ['/'] := by
      apply trimChars_eq_self
      · intro c hc
        simp [hat] at hc
        rw [← hc]; exact ha_sp
      · intro c hc
        simp at hc
        rw [← hc]; decide
    have h2 : trimChars (fun c => c == '/') (n.data ++ ['/']) = n.data := by
      unfold trimChars
      have hd : (n.data ++ ['/']).dropWhile (fun c => c == '/') = n.data ++ ['/'] := by
        simp [hat, ha_sl]
      rw [hd, List.rdropWhile_concat_pos _ _ _ (by simp), List.rdropWhile_eq_self_iff]
      intro hne
      have hmem : n.data.getLast hne ∈ n.data := List.getLast_mem hne
      have : n.data.getLast hne ≠ '/' := fun e => hns (e ▸ hmem)
      simpa using this
    have hdata0 : (n ++ "/" ++ "").data = n.data ++ ['/'] := by simp
    simp only [tokens, TrimSpace, Trim, Split, hdata0, h1, h2, if_true,
      splitChars_of_not_mem '/' n.data hns, List.map_cons, List.map_nil]
  · have hpd : p.data ≠ [] := data_ne_nil_of_ne_empty p hp
    have hlast : (n.data ++ '/' :: p.data).getLast? = p.data.getLast? := by
      rw [List.getLast?_append_of_ne_nil _ (by simp), List.getLast?_cons]
      cases hq : p.data.getLast? with
      | none => exact absurd (List.getLast?_eq_none_iff.mp hq) hpd
      | some b => simp
    have h1 : trimChars isSpace (n.data ++ '/' :: p.data) = n.data ++ '/' :: p.data := by
      apply trimChars_eq_self
      · intro c hc
        simp [hat] at hc
        rw [← hc]; exact ha_sp
      · intro c hc
        rw [hlast] at hc
        exact hpt c hc
    have h2 : trimChars (fun c => c == '/') (n.data ++ '/' :: p.data)
        = n.data ++ '/' :: p.data := by
      apply trimChars_eq_self
      · intro c hc
        simp [hat] at hc
        rw [← hc]; simpa using ha_sl
      · intro c hc
        rw [hlast] at hc
        have hmem : c ∈ p.data := List.mem_of_mem_getLast? hc
        have : c ≠ '/' := fun e => hps (e ▸ hmem)
        simpa using this
    simp only [tokens, TrimSpace, Trim, Split, hdata, h1, h2, hp, if_false,
      splitChars_append_sep '/' n.data p.data hns,
      splitChars_of_not_mem '/' p.data hps, List.map_cons, List.map_nil]

/-- The routing in one equation: the first child named like the first segment, with
the second segment as forwarded path. -/
theorem getStoreFromPath_eq (s : Store W) (path : String) :
    s.getStoreFromPath path =
      match s.stores.find? (fun store => store.Name == firstSegment path) with
      | some store => .ok (store, forwardedPath path)
      | none => .error Error.ErrorObjectNotFound := by
  unfold getStoreFromPath firstSegment forwardedPath
  cases ht : tokens path with
  | nil => exact absurd ht (tokens_ne_nil path)
  | cons first rest =>
    cases rest with
    | nil => simp
    | cons second more => simp

theorem getStoreFromPath_unmatched (s : Store W) (path : String)
    (h : ∀ c ∈ s.stores, c.Name ≠ firstSegment path) :
    s.getStoreFromPath path = .error Error.ErrorObjectNotFound := by
  have hnone : s.stores.find? (fun store => store.Name == firstSegment path) = none := by
    rw [List.find?_eq_none]
    intro c hc
    simpa using h c hc
  rw [getStoreFromPath_eq, hnone]

/-- The routing itself fails only with `ErrorObjectNotFound`. -/
theorem getStoreFromPath_error (s : Store W) (path : String) (e : Error)
    (h : s.getStoreFromPath path = .error e) : e = Error.ErrorObjectNotFound := by
  rw [getStoreFromPath_eq] at h
  split at h
  · cases h
  · injection h with h; exact h.symm

/-- A successful routing returns the first child whose name is the first segment,
and forwards the second segment. -/
theorem getStoreFromPath_ok (s : Store W) (path : String) (c : Acona.Store W) (fwd : String)
    (h : s.getStoreFromPath path = .ok (c, fwd)) :
    s.stores.find? (fun store => store.Name == firstSegment path) = some c ∧
      fwd = forwardedPath path := by
  rw [getStoreFromPath_eq] at h
  split at h
  · rename_i store hf
    injection h with h
    injection h with h1 h2
    subst h1
    exact ⟨hf, h2.symm⟩
  · cases h

/-! ## The composite store: unmatched routes, forwarding, rename -/

/-- C2: when the first segment of a path (after trimming surrounding whitespace and
slashes and splitting on `/`) is the name of no child, `PutObject`, `GetObject`,
`Examine`, `Remove`, `ListTree` (for a non-empty path) and `Rename` (with that path as
source or as target) fail with exactly `ErrorObjectNotFound` and leave the world as it
was: the backend state is untouched and no child operation is recorded. -/
theorem unmatched_route_fails (s : Store W) (path : String) (w : World W)
    (h : ∀ c ∈ s.stores, c.Name ≠ firstSegment path) :
    (∀ reader clientChecksum,
        s.PutObject reader path clientChecksum w = (some Error.ErrorObjectNotFound, w)) ∧
    s.GetObject path w = (.error Error.ErrorObjectNotFound, w) ∧
    s.Examine path w = (.error Error.ErrorObjectNotFound, w) ∧
    s.Remove path w = (some Error.ErrorObjectNotFound, w) ∧
    (path ≠ "" → s.ListTree path w = (.error Error.ErrorObjectNotFound, w)) ∧
    (∀ other, s.Rename path other w = (some Error.ErrorObjectNotFound, w) ∧
        s.Rename other path w = (some Error.ErrorObjectNotFound, w)) := by
  have hr := getStoreFromPath_unmatched s path h
  refine ⟨?_, ?_, ?_, ?_, ?_, ?_⟩
  · intro reader cs
    simp only [PutObject, hr]
  · simp only [GetObject, hr]
  · simp only [Examine, hr]
  · simp only [Remove, hr]
  · intro hne
    simp only [ListTree, hne, if_false, hr]
  · intro other
    constructor
    · simp only [Rename, hr]
    · unfold Rename
      cases ho : s.getStoreFromPath other with
      | error err =>
        have he := getStoreFromPath_error s other err ho
        simp only [he]
      | ok r => simp only [hr]

/-- The route `nosuchstore/a` of the store `album` is unmatched, and `Examine` on it
fails with `ErrorObjectNotFound` without touching the world. -/
theorem unmatched_route_fails_witness :
    (∀ c ∈ Examples.album.stores, c.Name ≠ firstSegment "nosuchstore/a") ∧
    Examples.album.Examine "nosuchstore/a" ⟨[], []⟩
      = (.error Error.ErrorObjectNotFound, ⟨[], []⟩) :=
  ⟨by decide, (unmatched_route_fails Examples.album "nosuchstore/a" ⟨[], []⟩ (by decide)).2.2.1⟩

/-- C3: when source and target resolve to children with different names, `Rename`
fails with exactly `ErrorCantMove` and leaves the world as it was (no child operation
is invoked, the backend state is unchanged); when they resolve to children with the
same name, the two children are the same store and the result, the new backend state
and the single recorded call are those of that child's `Rename` on the two forwarded
paths. -/
theorem rename_between_children (s : Store W) (srcPath destPath : String) (w : World W)
    (srcStore destStore : Acona.Store W) (src dest : String)
    (hs : s.getStoreFromPath srcPath = .ok (srcStore, src))
    (hd : s.getStoreFromPath destPath = .ok (destStore, dest)) :
    (srcStore.Name ≠ destStore.Name →
        s.Rename srcPath destPath w = (some Error.ErrorCantMove, w)) ∧
    (srcStore.Name = destStore.Name →
        srcStore = destStore ∧
        s.Rename srcPath destPath w =
          ((srcStore.Rename src dest w.backend).1,
            ⟨(srcStore.Rename src dest w.backend).2,
              w.calls ++ [Call.Rename srcStore.Name src dest]⟩)) := by
  constructor
  · intro hne
    simp only [Rename, hs, hd, hne, ne_eq, not_false_eq_true, if_true]
  · intro heq
    refine ⟨?_, ?_⟩
    · have h1 := (getStoreFromPath_ok s srcPath srcStore src hs).1
      have h2 := (getStoreFromPath_ok s destPath destStore dest hd).1
      have n1 : srcStore.Name = firstSegment srcPath := by
        simpa using List.find?_some h1
      have n2 : destStore.Name = firstSegment destPath := by
        simpa using List.find?_some h2
      have : firstSegment srcPath = firstSegment destPath := by rw [← n1, ← n2, heq]
      rw [this, h2] at h1
      exact (Option.some.inj h1).symm
    · simp only [Rename, hs, hd, heq, ne_eq, not_true_eq_false, if_false]

/-- In the store `album`, a rename from `photos/a.jpg` to `docs/a.jpg` fails with
`ErrorCantMove` and leaves the object in `photos` where it was. -/
theorem rename_between_children_witness :
    Examples.album.getStoreFromPath "photos/a.jpg" = .ok (Examples.memStore "photos", "a.jpg") ∧
    Examples.album.getStoreFromPath "docs/a.jpg" = .ok (Examples.memStore "docs", "a.jpg") ∧
    (Examples.memStore "photos").Name ≠ (Examples.memStore "docs").Name ∧
    Examples.album.Rename "photos/a.jpg" "docs/a.jpg" ⟨[("photos", "a.jpg", [1])], []⟩
      = (some Error.ErrorCantMove, ⟨[("photos", "a.jpg", [1])], []⟩) :=
  ⟨by rfl, by rfl, by decide,
    (rename_between_children Examples.album "photos/a.jpg" "docs/a.jpg"
      ⟨[("photos", "a.jpg", [1])], []⟩ (Examples.memStore "photos") (Examples.memStore "docs")
      "a.jpg" "a.jpg" (by rfl) (by rfl)).1 (by decide)⟩

/-- C8: when a path resolves to `(childStore, childPath)`, each of `PutObject`,
`GetObject` and `Remove` runs the same operation of `childStore` once, on `childPath`
(and, for `PutObject`, on the same reader and client checksum): the result is the
child's result unchanged, success or error, the backend state is the one the child
leaves, and exactly that one call is recorded. -/
theorem forwards_put_get_remove (s : Store W) (path : String) (w : World W)
    (childStore : Acona.Store W) (childPath : String)
    (h : s.getStoreFromPath path = .ok (childStore, childPath)) :
    (∀ reader clientChecksum,
        s.PutObject reader path clientChecksum w =
          ((childStore.PutObject reader childPath clientChecksum w.backend).1,
            ⟨(childStore.PutObject reader childPath clientChecksum w.backend).2,
              w.calls ++ [Call.PutObject childStore.Name reader childPath clientChecksum]⟩)) ∧
    s.GetObject path w =
      ((childStore.GetObject childPath w.backend).1,
        ⟨(childStore.GetObject childPath w.backend).2,
          w.calls ++ [Call.GetObject childStore.Name childPath]⟩) ∧
    s.Remove path w =
      ((childStore.Remove childPath w.backend).1,
        ⟨(childStore.Remove childPath w.backend).2,
          w.calls ++ [Call.Remove childStore.Name childPath]⟩) := by
  refine ⟨?_, ?_, ?_⟩
  · intro reader cs
    simp only [PutObject, h]
  · simp only [GetObject, h]
  · simp only [Remove, h]

/-- In the store `album`, `GetObject` on `photos/a.jpg` is the `GetObject` of the child
`photos` on `a.jpg`; on a missing object it returns the child's error as it is. -/
theorem forwards_put_get_remove_witness :
    Examples.album.getStoreFromPath "photos/a.jpg" = .ok (Examples.memStore "photos", "a.jpg") ∧
    Examples.album.GetObject "photos/a.jpg" ⟨[], []⟩ =
      (((Examples.memStore "photos").GetObject "a.jpg" []).1,
        ⟨((Examples.memStore "photos").GetObject "a.jpg" []).2,
          [Call.GetObject "photos" "a.jpg"]⟩) :=
  ⟨by rfl,
    (forwards_put_get_remove Examples.album "photos/a.jpg" ⟨[], []⟩
      (Examples.memStore "photos") "a.jpg" (by rfl)).2.1⟩

/-! ## The composite store: `Examine` and the root listing -/

/-- Routing `n/p` for the first child named `n` and a single segment `p`. -/
theorem getStoreFromPath_name_slash_segment (s : Store W) (c : Acona.Store W) (n p : String)
    (hc : s.stores.find? (fun store => store.Name == n) = some c)
    (hn : n ≠ "") (hns : '/' ∉ n.data) (hnl : ∀ ch ∈ n.data.head?, isSpace ch = false)
    (hps : '/' ∉ p.data) (hpt : ∀ ch ∈ p.data.getLast?, isSpace ch = false) :
    s.getStoreFromPath (n ++ "/" ++ p) = .ok (c, p) := by
  have ht := tokens_name_slash_segment n p hn hns hnl hps hpt
  have hfirst : firstSegment (n ++ "/" ++ p) = n := by
    unfold firstSegment
    rw [ht]
    split <;> rfl
  have hfwd : forwardedPath (n ++ "/" ++ p) = p := by
    unfold forwardedPath
    rw [ht]
    by_cases hp : p = ""
    · simp [hp]
    · simp [hp]
  rw [getStoreFromPath_eq, hfirst, hc, hfwd]

/-- C5 (amended): for the first child `c` named `n` of a composite store, where `n` is
not empty, has no `/` and does not start with whitespace, and for a path `p` that has
no `/` and does not end with whitespace: when the child's `Examine(p)` succeeds with
`o`, the composite's `Examine(n/p)` succeeds with the object that has the checksum,
id, isDir, modTime, mimeType, size and optional payload of `o` and the path
`SecureJoin(n, o.Path)`; exactly that one call of the child is recorded. -/
theorem examine_single_segment (s : Store W) (c : Acona.Store W) (n p : String)
    (o : Acona.Object) (w : World W)
    (hc : s.stores.find? (fun store => store.Name == n) = some c)
    (hn : n ≠ "") (hns : '/' ∉ n.data) (hnl : ∀ ch ∈ n.data.head?, isSpace ch = false)
    (hps : '/' ∉ p.data) (hpt : ∀ ch ∈ p.data.getLast?, isSpace ch = false)
    (ho : (c.Examine p w.backend).1 = .ok o) :
    s.Examine (n ++ "/" ++ p) w =
      (.ok { o with Path := SecureJoin n o.Path },
        ⟨(c.Examine p w.backend).2, w.calls ++ [Call.Examine n p]⟩) := by
  have hr := getStoreFromPath_name_slash_segment s c n p hc hn hns hnl hps hpt
  have hname : c.Name = n := by simpa using List.find?_some hc
  simp only [Examine, hr, ho, hname]
  rfl

/-- In the store `album`, `Examine` of `photos/a.jpg` is the object of the child
`photos` at `a.jpg` with the path `photos/a.jpg`. -/
theorem examine_single_segment_witness :
    (Examples.album.Examine ("photos" ++ "/" ++ "a.jpg") ⟨[("photos", "a.jpg", [1, 2, 3])], []⟩).1
      = .ok { Examples.memFile "a.jpg" [1, 2, 3] with Path := "photos/a.jpg" } :=
  congrArg Prod.fst
    (examine_single_segment Examples.album (Examples.memStore "photos") "photos" "a.jpg"
      (Examples.memFile "a.jpg" [1, 2, 3]) ⟨[("photos", "a.jpg", [1, 2, 3])], []⟩
      (by rfl) (by decide) (by decide) (by decide) (by decide) (by decide) (by rfl))

/-- C5 (counterexample): the child `photos` holds an object at the single-segment path
`a.jpg ` (with a trailing blank) and its `Examine` succeeds there, but the composite's
`Examine` of `photos/a.jpg ` trims the blank, asks the child for `a.jpg` and fails. -/
theorem examine_trims_trailing_blank :
    ((Examples.memStore "photos").Examine "a.jpg " [("photos", "a.jpg ", [1, 2, 3])]).1
      = .ok (Examples.memFile "a.jpg " [1, 2, 3]) ∧
    Examples.album.Examine ("photos" ++ "/" ++ "a.jpg ") ⟨[("photos", "a.jpg ", [1, 2, 3])], []⟩
      = (.error (Error.wrap Error.ErrorObjectNotFound "can't examine"),
          ⟨[("photos", "a.jpg ", [1, 2, 3])], [Call.Examine "photos" "a.jpg"]⟩) := by
  decide

/-- The secure join of a plain name and the empty path is the name. -/
theorem SecureJoin_plainName_empty (n : String) (h : plainName n) : SecureJoin n "" = n := by
  obtain ⟨hne, hns⟩ := h
  by_cases hdot : n = "."
  · subst hdot; decide
  by_cases hdotdot : n = ".."
  · subst hdotdot; decide
  have hnd : n.data ≠ [] := data_ne_nil_of_ne_empty n hne
  obtain ⟨a, t, hat⟩ := List.exists_cons_of_ne_nil hnd
  have ha_sl : a ≠ '/' := fun e => hns (by simp [hat, e])
  have hj : Join ["/", ""] = "/" := by decide
  have hjs : JoinStrings [n, "/"] "/" = n ++ "/" ++ "/" := by
    simp [JoinStrings, String.intercalate, String.intercalate.go]
  have hdata : (n ++ "/" ++ "/").data = n.data ++ '/' :: ['/'] := by
    simp [String.data_append]
  have hsplit : Split (n ++ "/" ++ "/") '/' = [n, "", ""] := by
    simp only [Split, hdata, splitChars_append_sep '/' n.data ['/'] hns]
    rfl
  have hrooted : ¬ ((n ++ "/" ++ "/").data.head? = some '/') := by
    simp [hdata, hat, ha_sl]
  have hfold : List.foldl (cleanStep false) [] [n, "", ""] = [n] := by
    simp [cleanStep, hne, hdot, hdotdot]
  have hbody : JoinStrings [n] "/" = n := by
    simp [JoinStrings, String.intercalate, String.intercalate.go]
  have hclean : Clean (n ++ "/" ++ "/") = n := by
    simp only [Clean, hsplit, hrooted, decide_False, hfold, List.reverse_cons, List.reverse_nil,
      List.nil_append, hbody, hne, if_false, Bool.false_eq_true]
  have hdw : List.dropWhile (fun e => e == "") [n, "/"] = [n, "/"] := by
    simp [hne]
  unfold SecureJoin
  rw [hj]
  unfold Join
  rw [hdw]
  simp only [hjs, hclean]

/-- The result of the root-listing loop extends the slice it started from. -/
theorem listRootLoop_extends (stores : List (Acona.Store W)) (acc res : List Acona.Object)
    (w : World W) (h : (listRootLoop stores acc w).1 = .ok res) : ∃ objs, res = acc ++ objs := by
  induction stores generalizing acc w with
  | nil =>
    simp only [listRootLoop, Except.ok.injEq] at h
    exact ⟨[], by simp [h]⟩
  | cons c rest ih =>
    simp only [listRootLoop] at h
    cases hr : (c.Examine "" w.backend).1 with
    | error err =>
      rw [hr] at h
      simp at h
    | ok o =>
      rw [hr] at h
      obtain ⟨objs, ho⟩ := ih _ _ h
      exact ⟨newObject c.Name o :: objs, by simp [ho]⟩

/-- The root-listing loop when the root of every child, examined in the state the
loop reaches, is a directory whose secure join with the name of the child is that
name. -/
theorem listRootLoop_entries (stores : List (Acona.Store W)) (acc : List Acona.Object)
    (w : World W)
    (h : ∀ pre c post, stores = pre ++ c :: post →
      ∃ o, (c.Examine "" (examinedRoots pre w.backend)).1 = .ok o ∧ o.IsDir = true ∧
        SecureJoin c.Name o.Path = c.Name) :
    ∃ objs, (listRootLoop stores acc w).1 = .ok (acc ++ objs) ∧
      objs.map (fun e => (e.IsDir, e.Path)) = stores.map (fun c => (true, c.Name)) := by
  induction stores generalizing acc w with
  | nil => exact ⟨[], by simp [listRootLoop], rfl⟩
  | cons c rest ih =>
    obtain ⟨o, ho, hdir, hpath⟩ := h [] c rest rfl
    have ho1 : (c.Examine "" w.backend).1 = .ok o := ho
    have hrest := ih (acc ++ [newObject c.Name o])
      ⟨(c.Examine "" w.backend).2, w.calls ++ [Call.Examine c.Name ""]⟩
      (fun pre c1 post hsplit => h (c :: pre) c1 post (by simp [hsplit]))
    obtain ⟨objs, h1, h2⟩ := hrest
    refine ⟨newObject c.Name o :: objs, ?_, ?_⟩
    · simp only [listRootLoop, ho1]
      rw [h1]
      simp
    · have hp : (newObject c.Name o).Path = c.Name := hpath
      have hd : (newObject c.Name o).IsDir = true := hdir
      simp [h2, hp, hd]

/-- The converse of `listRootLoop_entries`: a listing with one directory entry per
child, each at the name of the child, comes from roots that are such directories. -/
theorem listRootLoop_entries_conv (stores : List (Acona.Store W))
    (acc objs : List Acona.Object) (w : World W)
    (h1 : (listRootLoop stores acc w).1 = .ok (acc ++ objs))
    (h2 : objs.map (fun e => (e.IsDir, e.Path)) = stores.map (fun c => (true, c.Name))) :
    ∀ pre c post, stores = pre ++ c :: post →
      ∃ o, (c.Examine "" (examinedRoots pre w.backend)).1 = .ok o ∧ o.IsDir = true ∧
        SecureJoin c.Name o.Path = c.Name := by
  induction stores generalizing acc objs w with
  | nil =>
    intro pre c post hsplit
    simp at hsplit
  | cons c0 rest ih =>
    simp only [listRootLoop] at h1
    cases hr : (c0.Examine "" w.backend).1 with
    | error err =>
      rw [hr] at h1
      simp at h1
    | ok o =>
      rw [hr] at h1
      simp only [] at h1
      obtain ⟨tail, htail⟩ := listRootLoop_extends rest _ _ _ h1
      have hobjs : objs = newObject c0.Name o :: tail := by
        have : acc ++ objs = acc ++ (newObject c0.Name o :: tail) := by
          rw [htail]; simp
        exact List.append_cancel_left this
      subst hobjs
      simp only [List.map_cons, List.cons.injEq, Prod.mk.injEq] at h2
      obtain ⟨⟨hdir, hpath⟩, h2tail⟩ := h2
      have h1tail : (listRootLoop rest (acc ++ [newObject c0.Name o])
          ⟨(c0.Examine "" w.backend).2, w.calls ++ [Call.Examine c0.Name ""]⟩).1
          = .ok ((acc ++ [newObject c0.Name o]) ++ tail) := by
        rw [h1]; simp
      intro pre c post hsplit
      cases pre with
      | nil =>
        simp only [List.nil_append, List.cons.injEq] at hsplit
        obtain ⟨hc, _⟩ := hsplit
        subst hc
        exact ⟨o, hr, hdir, hpath⟩
      | cons p pre1 =>
        simp only [List.cons_append, List.cons.injEq] at hsplit
        obtain ⟨hp, hrest⟩ := hsplit
        subst hp
        exact ih _ _ _ h1tail h2tail pre1 c post hrest

/-- The root listing is the root-listing loop started from the empty slice. -/
theorem ListTree_root_eq (s : Store W) (w : World W) :
    (s.ListTree "" w).1 = (listRootLoop s.stores [] w).1 := by
  simp only [ListTree, if_true, listRoot]
  split <;> simp [*]

/-- C4 (amended): `ListTree("")` of a composite store returns exactly one entry per
configured child store, in the order of the child list, each with isDir = true and
path equal to that child's name, if and only if the `Examine("")` of each child, run
in the backend state that the `Examine("")` of the children before it leaves,
succeeds with a directory object whose secure join with the child's name is that
name. -/
theorem listTree_root_entries (s : Store W) (w : World W) :
    (∀ pre c post, s.stores = pre ++ c :: post →
      ∃ o, (c.Examine "" (examinedRoots pre w.backend)).1 = .ok o ∧ o.IsDir = true ∧
        SecureJoin c.Name o.Path = c.Name) ↔
    ∃ objs, (s.ListTree "" w).1 = .ok objs ∧
      objs.map (fun e => (e.IsDir, e.Path)) = s.stores.map (fun c => (true, c.Name)) := by
  constructor
  · intro h
    obtain ⟨objs, h1, h2⟩ := listRootLoop_entries s.stores [] w h
    exact ⟨objs, by rw [ListTree_root_eq, h1]; simp, h2⟩
  · rintro ⟨objs, h1, h2⟩
    rw [ListTree_root_eq] at h1
    exact listRootLoop_entries_conv s.stores [] objs w (by simpa using h1) h2

/-- The root listing of the store `shelf`, whose child is the local store `data` over
the directory `/data` of the sample filesystem, has the one entry `data`, a
directory. -/
theorem listTree_root_entries_witness :
    ∃ objs, (Examples.shelf.ListTree "" ⟨Examples.sampleFS, []⟩).1 = .ok objs ∧
      objs.map (fun e => (e.IsDir, e.Path)) = [(true, "data")] :=
  (listTree_root_entries Examples.shelf ⟨Examples.sampleFS, []⟩).mp
    (by
      intro pre c post hsplit
      cases pre with
      | nil =>
        simp only [Examples.shelf, List.nil_append, List.cons.injEq] at hsplit
        obtain ⟨hc, _⟩ := hsplit
        subst hc
        exact ⟨Local.newObject Examples.memOS ⟨"data", 0, 0, true⟩ "", by decide, by decide,
          by decide⟩
      | cons p pre1 =>
        simp [Examples.shelf] at hsplit)

/-- C4 (counterexample): three composite stores with one configured child each. The
child of `nested` is a composite store, its `Examine("")` fails and the root listing
returns an error. The child of `fileRooted` is a local store whose root is a regular
file, and its entry has isDir = false. The child of `slashNamed` is named `photos/`,
and the path of its entry is `photos`. -/
theorem root_listing_can_fail_or_differ :
    (Examples.nested.stores.length = 1 ∧
      (Examples.nested.ListTree "" ⟨⟨[], []⟩, []⟩).1
        = .error (Error.wrap Error.ErrorObjectNotFound "can't examine")) ∧
    (Examples.fileRooted.stores.length = 1 ∧
      ((Examples.fileRooted.ListTree "" ⟨Examples.sampleFS, []⟩).1.map
          (fun objs => objs.map (fun e => (e.IsDir, e.Path)))) = .ok [(false, "a")]) ∧
    (Examples.slashNamed.stores.map (fun c => c.Name) = ["photos/"] ∧
      ((Examples.slashNamed.ListTree "" ⟨Examples.sampleFS, []⟩).1.map
          (fun objs => objs.map (fun e => (e.IsDir, e.Path)))) = .ok [(true, "photos")]) := by
  decide

/-! ## The composite store: errors of the children -/

/-- The root-listing loop over a list of children splits at any point where the first
part succeeds. -/
theorem listRootLoop_append (pre rest : List (Acona.Store W)) (acc objs : List Acona.Object)
    (w w1 : World W) (h : listRootLoop pre acc w = (.ok objs, w1)) :
    listRootLoop (pre ++ rest) acc w = listRootLoop rest objs w1 := by
  induction pre generalizing acc w with
  | nil =>
    simp only [listRootLoop, Prod.mk.injEq, Except.ok.injEq] at h
    obtain ⟨h1, h2⟩ := h
    subst h1 h2
    rfl
  | cons c pre ih =>
    simp only [List.cons_append, listRootLoop] at h ⊢
    cases hr : (c.Examine "" w.backend).1 with
    | error err =>
      rw [hr] at h
      simp at h
    | ok o =>
      rw [hr] at h
      simp only [] at h ⊢
      exact ih _ _ h

/-- A wrapped error is never the error it wraps. -/
theorem wrap_ne_self (e : Error) (msg : String) : Error.wrap e msg ≠ e := by
  intro h
  have := congrArg sizeOf h
  simp at this
  omega

/-- C9 (amended): when a path resolves to a child and the child's `Examine` or
`ListTree` fails with `e`, the composite's `Examine` returns `e` wrapped with the
message `can't examine` and its `ListTree` returns `e` wrapped with the message
`can't list tree - ` followed by the forwarded path; when, in the root listing, the
children before `c` succeed and the `Examine("")` of `c` fails with `e`, the listing
returns `e` wrapped with `can't examine`. The returned error is not `e` itself; its
cause (`errors.Cause`) is the cause of `e`. -/
theorem child_errors_are_wrapped (s : Store W) (w : World W) (c : Acona.Store W) (e : Error) :
    (∀ path p, s.getStoreFromPath path = .ok (c, p) →
        (c.Examine p w.backend).1 = .error e →
        (s.Examine path w).1 = .error (Error.wrap e "can't examine")) ∧
    (∀ path p, path ≠ "" → s.getStoreFromPath path = .ok (c, p) →
        (c.ListTree p w.backend).1 = .error e →
        (s.ListTree path w).1 = .error (Error.wrap e ("can't list tree - " ++ p))) ∧
    (∀ pre post objs w1, s.stores = pre ++ c :: post →
        listRootLoop pre [] w = (.ok objs, w1) →
        (c.Examine "" w1.backend).1 = .error e →
        (s.ListTree "" w).1 = .error (Error.wrap e "can't examine")) ∧
    (∀ msg, Error.wrap e msg ≠ e ∧ (Error.wrap e msg).Cause = e.Cause) := by
  refine ⟨?_, ?_, ?_, ?_⟩
  · intro path p hr he
    simp only [Examine, hr, he]
  · intro path p hne hr he
    simp only [ListTree, hne, if_false, hr, he]
  · intro pre post objs w1 hst hpre he
    have happ := listRootLoop_append pre (c :: post) [] objs w w1 hpre
    simp only [ListTree, if_true, listRoot, hst, happ, listRootLoop, he]
  · intro msg
    exact ⟨wrap_ne_self e msg, rfl⟩

/-- In the store `album`, the child `photos` fails on `missing` with
`ErrorObjectNotFound`, and the composite's `Examine` returns that error wrapped. -/
theorem child_errors_are_wrapped_witness :
    Examples.album.getStoreFromPath "photos/missing"
      = .ok (Examples.memStore "photos", "missing") ∧
    ((Examples.memStore "photos").Examine "missing" []).1 = .error Error.ErrorObjectNotFound ∧
    (Examples.album.Examine "photos/missing" ⟨[], []⟩).1
      = .error (Error.wrap Error.ErrorObjectNotFound "can't examine") :=
  ⟨by rfl, by rfl,
    (child_errors_are_wrapped Examples.album ⟨[], []⟩ (Examples.memStore "photos")
      Error.ErrorObjectNotFound).1 "photos/missing" "missing" (by rfl) (by rfl)⟩

/-- C9 (counterexample): the child `photos` fails on `missing` with
`ErrorObjectNotFound`; the composite's `Examine` and `ListTree` on `photos/missing`
return errors that are not `ErrorObjectNotFound`. -/
theorem child_error_is_not_returned_unchanged :
    ((Examples.memStore "photos").Examine "missing" []).1 = .error Error.ErrorObjectNotFound ∧
    ((Examples.memStore "photos").ListTree "missing" []).1 = .error Error.ErrorObjectNotFound ∧
    (Examples.album.Examine "photos/missing" ⟨[], []⟩).1 ≠ .error Error.ErrorObjectNotFound ∧
    (Examples.album.ListTree "photos/missing" ⟨[], []⟩).1 ≠ .error Error.ErrorObjectNotFound := by
  decide

/-! ## The composite store: multi-segment paths -/

/-- C1 (failing input): for the path `photos/2021/img.jpg` the routing of the store
`album` returns the child `photos` and forwards `2021`, the second segment alone, not
the remainder `2021/img.jpg`. -/
theorem routing_forwards_second_segment_only :
    Examples.album.getStoreFromPath "photos/2021/img.jpg"
      = .ok (Examples.memStore "photos", "2021") ∧
    "2021" ≠ "2021/img.jpg" :=
  ⟨by rfl, by decide⟩

/-- C7 (failing input): the child `photos` holds an object at `2021/img.jpg`. The
composite's listing of `photos/2021` returns it with the path `photos/2021/img.jpg`;
`GetObject` on that path asks the child for `2021` and fails, while the child's
`GetObject` on `2021/img.jpg` returns the content. -/
theorem listed_path_does_not_route_back :
    (Examples.album.ListTree "photos/2021" ⟨[("photos", "2021/img.jpg", [1, 2, 3])], []⟩).1
      = .ok [{ Examples.memFile "2021/img.jpg" [1, 2, 3] with Path := "photos/2021/img.jpg" }] ∧
    Examples.album.GetObject "photos/2021/img.jpg" ⟨[("photos", "2021/img.jpg", [1, 2, 3])], []⟩
      = (.error Error.ErrorObjectNotFound,
          ⟨[("photos", "2021/img.jpg", [1, 2, 3])], [Call.GetObject "photos" "2021"]⟩) ∧
    ((Examples.memStore "photos").GetObject "2021/img.jpg"
        [("photos", "2021/img.jpg", [1, 2, 3])]).1 = .ok [1, 2, 3] := by
  decide

end Root.Store

/-! ## The local store -/

namespace Local.Store

open Acona

variable {F : Type}

/-- The constructor `NewStore` always succeeds and never copies the checksum flag of
the configuration: the store it returns has `checkInputHash = false`. -/
theorem NewStore_checkInputHash (os : OS F) (name root : String) (config : Config) :
    ∃ store, NewStore os name root config = .ok store ∧ store.checkInputHash = false := by
  unfold NewStore
  by_cases h : config.TempDir = ""
  · simp [h]
  · simp [h]

/-- With the flag set in the struct itself, `PutObject` hashes the reader that
`saveToTempFile` has already read to its end: a client checksum equal to the hash of
the empty stream passes for any content. -/
theorem PutObject_hashes_the_drained_reader :
    Examples.sumHashing.HashStream [104, 105] = .ok (fun kind => if kind = 1 then "209" else "") ∧
    (PutObject Examples.memOS Examples.sumHashing
      { Examples.checkedStore with checkInputHash := true } [104, 105] "x" "sum:0"
      Examples.sampleFS).1 = none := by
  constructor
  · rfl
  · decide

/-- C6 (failing input): the store built by `NewStore` from a configuration with
`CheckInputHash = true` has the check switched off; a `PutObject` of the bytes
`[104, 105]` (hash `209`) with the recognized client checksum `sum:7` succeeds, and
the object is visible at `x`. -/
theorem put_with_wrong_checksum_is_committed :
    NewStore Examples.memOS "data" ""
        { RootDir := "/data", TempDir := "/tmp", CheckInputHash := true }
      = .ok Examples.checkedStore ∧
    Examples.checkedStore.checkInputHash = false ∧
    Examples.sumHashing.HashTypeFromString "sum:7" ≠ Examples.sumHashing.HashNone ∧
    (∃ computedHash, Examples.sumHashing.HashStream [104, 105] = .ok computedHash ∧
      computedHash (Examples.sumHashing.HashTypeFromString "sum:7")
        ≠ Examples.sumHashing.HashValueFromString "sum:7") ∧
    (PutObject Examples.memOS Examples.sumHashing Examples.checkedStore [104, 105] "x" "sum:7"
      Examples.sampleFS).1 = none ∧
    Examples.memOS.Stat "/data/x"
      (PutObject Examples.memOS Examples.sumHashing Examples.checkedStore [104, 105] "x" "sum:7"
        Examples.sampleFS).2 = .ok ⟨"x", 2, 0, false⟩ :=
  ⟨by decide, by decide, by decide, ⟨_, rfl, by decide⟩, by decide, by decide⟩

/-- C10 (amended): `ListTree(p)` of a local store, by the outcome of the calls on the
confined path. A failing stat gives `ErrorObjectNotFound` when the error is a
not-exist error and the error wrapped with `can't stat` otherwise; a stat of
something that is not a directory gives `ErrorIsFile`; a directory that cannot be
opened gives `ErrorObjectNotFound` for a not-exist error and the error of the open
otherwise; a directory that cannot be read gives the error wrapped with
`can't read dir`; a directory that opens and is read with the entries `entries` gives
exactly one object per entry, in order, and the path and the id of each object are
`filepath.Join(p, Base(name))` for the name of its entry: they are built from the
virtual path `p`, never from the confined physical path. -/
theorem local_ListTree (os : OS F) (s : Store) (p : String) (fs : F) :
    (∀ err, os.Stat (s.getLocalPath p) fs = .error err →
        s.ListTree os p fs =
          .error (if IsNotExist err then Error.ErrorObjectNotFound
                  else Error.wrap err "can't stat")) ∧
    (∀ fi, os.Stat (s.getLocalPath p) fs = .ok fi → fi.IsDir = false →
        s.ListTree os p fs = .error Error.ErrorIsFile) ∧
    (∀ fi err, os.Stat (s.getLocalPath p) fs = .ok fi → fi.IsDir = true →
        os.Open (s.getLocalPath p) fs = some err →
        s.ListTree os p fs =
          .error (if IsNotExist err then Error.ErrorObjectNotFound else err)) ∧
    (∀ fi err, os.Stat (s.getLocalPath p) fs = .ok fi → fi.IsDir = true →
        os.Open (s.getLocalPath p) fs = none →
        os.Readdir (s.getLocalPath p) fs = .error err →
        s.ListTree os p fs = .error (Error.wrap err "can't read dir")) ∧
    (∀ fi entries, os.Stat (s.getLocalPath p) fs = .ok fi → fi.IsDir = true →
        os.Open (s.getLocalPath p) fs = none →
        os.Readdir (s.getLocalPath p) fs = .ok entries →
        ∃ objs, s.ListTree os p fs = .ok objs ∧
          objs.map (fun o => (o.Path, o.ID, o.IsDir, o.Size, o.ModTime))
            = entries.map (fun fi =>
                (Join [p, Base fi.Name], Join [p, Base fi.Name], fi.IsDir, fi.Size, fi.ModTime))) := by
  refine ⟨?_, ?_, ?_, ?_, ?_⟩
  · intro err hs
    by_cases hne : IsNotExist err = true
    · simp only [ListTree, hs, hne, if_true]
    · simp only [ListTree, hs, hne, if_false, Bool.false_eq_true]
  · intro fi hs hd
    simp only [ListTree, hs, hd, Bool.not_false, if_true]
  · intro fi err hs hd ho
    by_cases hne : IsNotExist err = true
    · simp only [ListTree, hs, hd, Bool.not_true, Bool.false_eq_true, if_false, ho, hne, if_true]
    · simp only [ListTree, hs, hd, Bool.not_true, Bool.false_eq_true, if_false, ho, hne]
  · intro fi err hs hd ho hr
    simp only [ListTree, hs, hd, Bool.not_true, Bool.false_eq_true, if_false, ho, hr]
  · intro fi entries hs hd ho hr
    refine ⟨entries.map (fun fi => newObject os fi (Join [p, Base fi.Name])), ?_, ?_⟩
    · simp only [ListTree, hs, hd, Bool.not_true, Bool.false_eq_true, if_false, ho, hr]
    · simp only [List.map_map]
      rfl

/-- On the sample filesystem, the store rooted at `/data` lists the directory `2021`
as the one object `2021/img.jpg`; its physical path is `/data/2021/img.jpg`. -/
theorem local_ListTree_witness :
    Examples.checkedStore.getLocalPath "2021" = "/data/2021" ∧
    ∃ objs, Examples.checkedStore.ListTree Examples.memOS "2021" Examples.sampleFS = .ok objs ∧
      objs.map (fun o => (o.Path, o.ID, o.IsDir, o.Size, o.ModTime))
        = [("2021/img.jpg", "2021/img.jpg", false, 2, 0)] :=
  ⟨by decide,
    (local_ListTree Examples.memOS Examples.checkedStore "2021" Examples.sampleFS).2.2.2.2
      ⟨"2021", 0, 0, true⟩ [⟨"img.jpg", 2, 0, false⟩] (by decide) (by decide) (by decide)
      (by decide)⟩

/-- C10 (counterexample): on the sample filesystem the confined path of `a.jpg/x`
does not exist, and `ListTree` fails with the wrapped error of the stat, which is
neither `ErrorObjectNotFound` nor `ErrorIsFile`; in `lockedFS` the confined path of
`private` exists and is a directory, and `ListTree` returns the error of the open
instead of a listing. -/
theorem local_ListTree_other_failures :
    (Examples.fsFind (Examples.checkedStore.getLocalPath "a.jpg/x") Examples.sampleFS = none ∧
      Examples.checkedStore.ListTree Examples.memOS "a.jpg/x" Examples.sampleFS
        = .error (Error.wrap (Error.os false false "not a directory") "can't stat")) ∧
    (Examples.memOS.Stat (Examples.checkedStore.getLocalPath "private") Examples.lockedFS
        = .ok ⟨"private", 0, 0, true⟩ ∧
      Examples.checkedStore.ListTree Examples.memOS "private" Examples.lockedFS
        = .error (Error.os false false "permission denied")) := by
  decide

end Local.Store
